import Mathlib

/-!
Verification of the session / unit-of-work core of an object-document
mapper (source file: src/sessionImpl.ts).

The embedding models the session state machine directly from the source:

* The identity table (this._objectLinks, a JS object keyed by
  id.toString()) becomes an association list from identifiers to
  ObjectLinks records, kept in insertion order (JS for-in enumeration
  order for the non-numeric ObjectId string keys used by the mapper).
  Identifiers are modelled as naturals; stringification of distinct ids
  is injective, so the table is keyed by the id itself.
* Entities are JS objects mutated in place (obj["_id"] = ...), so the
  embedding carries a heap assigning to every entity reference the
  current value of its _id attribute (none when the attribute is absent
  or deleted).
* Persisters, the mapping registry and the batch are external
  collaborators.  They are modelled from the spec where their code is
  not part of the sources: a persister carries its change-tracking mode,
  its identity generator, and its dirtyCheck / insert / refresh entry
  points; dirtyCheck appends zero or one update operation, insert
  appends one insert operation, remove appends one delete operation.
* Asynchronous completion is modelled by the value delivered to the
  operation callback (an OpOutcome); batch execution is modelled by an
  externally chosen outcome passed to the flush function.
-/

namespace HydrateSession

/-- Entity identifiers (the values produced by identity generators; in the
source these are ObjectId-like values keyed in the table by toString()). -/
abbrev Ident := Nat

/-- A reference to a live JS entity object. -/
abbrev EntityRef := Nat

/-- A document snapshot (opaque to the session). -/
abbrev Doc := Nat

/-- Error values delivered to callbacks (Error messages in the source). -/
abbrev Err := String

/-- Error message texts from sessionImpl.ts (apostrophes elided). -/
def errNotMapped : Err := "Object type is not mapped as an entity."

/-- Error raised by save on a detached entity. -/
def errSaveDetached : Err := "Cannot save a detached object."

/-- Error raised by remove on a detached entity. -/
def errRemoveDetached : Err := "Cannot remove a detached object."

/-- Error thrown by _linkObject on a duplicate identifier. -/
def errDuplicateLink : Err := "Session already contains a managed entity with identifier."

/-- Error thrown by reading _id.toString() of an object without an _id. -/
def errNoIdent : Err := "TypeError: cannot read toString of undefined."

/-- ObjectState from sessionImpl.ts. -/
inductive ObjectState
  | Managed
  | Detached
  | Removed
deriving DecidableEq

/-- ScheduledOperation from sessionImpl.ts. -/
inductive ScheduledOperation
  | None
  | Insert
  | Update
  | Delete
  | DirtyCheck
deriving DecidableEq

/-- ChangeTracking modes of a persister (external collaborator). -/
inductive ChangeTracking
  | DeferredImplicit
  | DeferredExplicit
  | Observe
deriving DecidableEq

/-- Operations appended to the batch.  Modelled from the spec: the
persister appends update documents, insert documents, and deletes for a
given entity; the batch itself lives outside the session sources. -/
inductive BatchOp
  | update (doc : Doc)
  | insert (doc : Doc)
  | delete (entity : EntityRef)
deriving DecidableEq

/-- Result of persister.dirtyCheck.  Modelled from the spec: dirtyCheck
appends 0 or 1 update operation to the batch and returns the new snapshot
document in value, or an error. -/
structure DirtyCheckResult where
  updateOp : Option Doc
  value : Doc
  error : Option Err

/-- Result of persister.insert.  Modelled from the spec: insert appends
exactly one insert operation and returns the freshly built document. -/
structure InsertResult where
  insertOp : Doc
  value : Doc
  error : Option Err

/-- A persister (external collaborator).  Modelled from the spec: the
session only consumes changeTracking, the identity generator, and the
dirtyCheck / insert / remove batch entry points.  generate is indexed by
the number of generator calls made so far; remove deterministically
appends one delete operation for the entity and is inlined at its single
call site in the delete pass. -/
structure Persister where
  changeTracking : ChangeTracking
  generate : Nat → Ident
  dirtyCheck : EntityRef → Option Doc → DirtyCheckResult
  insert : EntityRef → InsertResult

/-- ObjectLinks from sessionImpl.ts: the per-entity record stored in the
identity table. -/
structure ObjectLinks where
  state : ObjectState
  scheduledOperation : ScheduledOperation
  object : EntityRef
  originalDocument : Option Doc
  persister : Persister

/-- The mutable session state: the identity table (this._objectLinks,
in enumeration order), the _id attribute of every live entity (entities
are mutated in place by the session), and the number of identity
generator calls made so far. -/
structure SessionState where
  objectLinks : List (Ident × ObjectLinks)
  heap : EntityRef → Option Ident
  genCount : Nat

/-- The environment: the mapping registry / persister cache, i.e. the
composition this.getPersister (factory.getMappingForObject obj) used by
_getPersisterForObject; none when the object type has no mapping. -/
structure Env where
  persisterOf : EntityRef → Option Persister

/-- Lookup in the identity table (this._objectLinks[id.toString()]). -/
def tableLookup : List (Ident × ObjectLinks) → Ident → Option ObjectLinks
  | [], _ => none
  | e :: rest, k => if e.1 = k then some e.2 else tableLookup rest k

/-- Deletion from the identity table (delete this._objectLinks[key]). -/
def tableErase (t : List (Ident × ObjectLinks)) (k : Ident) : List (Ident × ObjectLinks) :=
  t.filter (fun e => e.1 != k)

/-- In-place mutation of the links record stored under a key (the source
mutates the record through the reference returned by the lookup). -/
def setLinks (st : SessionState) (k : Ident) (l : ObjectLinks) : SessionState :=
  { st with objectLinks := st.objectLinks.map (fun e => if e.1 = k then (k, l) else e) }

/-- The outcome of a session operation: the callback value together with
the session state at the time the callback fires; thrown records a
synchronous JS exception escaping the operation. -/
inductive OpOutcome
  | ok (st : SessionState)
  | err (e : Err) (st : SessionState)
  | thrown (e : Err) (st : SessionState)

/-- The error delivered to the operation callback, if any. -/
def OpOutcome.callbackError : OpOutcome → Option Err
  | .ok _ => none
  | .err e _ => some e
  | .thrown _ _ => none

/-- The session state when the operation finishes. -/
def OpOutcome.state : OpOutcome → SessionState
  | .ok st => st
  | .err _ st => st
  | .thrown _ st => st

/-- True when the operation completed without a callback error or a
thrown exception. -/
def OpOutcome.isOk : OpOutcome → Bool
  | .ok _ => true
  | _ => false

/-- _linkObject from sessionImpl.ts: reads obj._id (throwing when the
attribute is absent), throws on a duplicate key, otherwise stores a new
Managed links record in the table and returns it. -/
def _linkObject (st : SessionState) (obj : EntityRef) (persister : Persister)
    (operation : ScheduledOperation) : Except Err (ObjectLinks × SessionState) :=
  match st.heap obj with
  | none => .error errNoIdent
  | some id =>
    match tableLookup st.objectLinks id with
    | some _ => .error errDuplicateLink
    | none =>
      let links : ObjectLinks :=
        { state := .Managed, scheduledOperation := operation, object := obj,
          originalDocument := none, persister := persister }
      .ok (links, { st with objectLinks := st.objectLinks ++ [(id, links)] })

/-- _unlinkObject from sessionImpl.ts: removes the entry keyed by the
entity's stringified _id, and deletes the _id attribute when the link was
a pending insert or the entity was removed.  The source throws when _id
is already absent; every caller reaches this point with _id set, so that
branch leaves the state unchanged here. -/
def _unlinkObject (st : SessionState) (links : ObjectLinks) : SessionState :=
  match st.heap links.object with
  | none => st
  | some id =>
    let t := tableErase st.objectLinks id
    if links.scheduledOperation == .Insert || links.state == .Removed then
      { st with objectLinks := t,
                heap := fun r => if r = links.object then none else st.heap r }
    else
      { st with objectLinks := t }

/-- _getObjectLinks from sessionImpl.ts, returning the table key together
with the links record.  When the object carries an _id that is absent
from the table and its type is mapped, the source calls _linkObject (the
duplicate-link throw is impossible there because the lookup just failed)
and then overwrites the state of the freshly stored record to Detached;
the detached record therefore sits in the identity table. -/
def _getObjectLinks (env : Env) (st : SessionState) (obj : EntityRef) :
    Option (Ident × ObjectLinks) × SessionState :=
  match st.heap obj with
  | none => (none, st)
  | some id =>
    match tableLookup st.objectLinks id with
    | some links => (some (id, links), st)
    | none =>
      match env.persisterOf obj with
      | none => (none, st)
      | some persister =>
        let links : ObjectLinks :=
          { state := .Detached, scheduledOperation := .None, object := obj,
            originalDocument := none, persister := persister }
        (some (id, links), { st with objectLinks := st.objectLinks ++ [(id, links)] })

/-- One iteration of the _saveEntities loop in sessionImpl.ts. -/
def saveEntityStep (env : Env) (st : SessionState) (obj : EntityRef) : OpOutcome :=
  match _getObjectLinks env st obj with
  | (none, st1) =>
    match env.persisterOf obj with
    | none => .err errNotMapped st1
    | some persister =>
      let newId := persister.generate st1.genCount
      let st2 : SessionState :=
        { st1 with heap := fun r => if r = obj then some newId else st1.heap r,
                   genCount := st1.genCount + 1 }
      match _linkObject st2 obj persister .Insert with
      | .error e => .thrown e st2
      | .ok (_, st3) => .ok st3
  | (some (k, links), st1) =>
    match links.state with
    | .Managed =>
      if links.persister.changeTracking == .DeferredExplicit
          && links.scheduledOperation == .None then
        .ok (setLinks st1 k { links with scheduledOperation := .DirtyCheck })
      else
        .ok st1
    | .Detached => .err errSaveDetached st1
    | .Removed =>
      .ok (setLinks st1 k { links with scheduledOperation := .None, state := .Managed })

/-- _saveEntities from sessionImpl.ts: the loop over the entity list
produced by the cascade-save graph walk, stopping at the first error. -/
def _saveEntities (env : Env) (st : SessionState) : List EntityRef → OpOutcome
  | [] => .ok st
  | obj :: rest =>
    match saveEntityStep env st obj with
    | .ok st1 => _saveEntities env st1 rest
    | out => out

/-- One iteration of the _removeEntities loop in sessionImpl.ts. -/
def removeEntityStep (env : Env) (st : SessionState) (obj : EntityRef) : OpOutcome :=
  match _getObjectLinks env st obj with
  | (none, st1) => .ok st1
  | (some (k, links), st1) =>
    match links.state with
    | .Managed =>
      if links.scheduledOperation == .Insert then
        .ok (_unlinkObject st1 links)
      else
        .ok (setLinks st1 k { links with scheduledOperation := .Delete, state := .Removed })
    | .Detached => .err errRemoveDetached st1
    | .Removed => .ok st1

/-- The _removeEntities loop body over an already reversed list. -/
def removeEntitiesLoop (env : Env) (st : SessionState) : List EntityRef → OpOutcome
  | [] => .ok st
  | obj :: rest =>
    match removeEntityStep env st obj with
    | .ok st1 => removeEntitiesLoop env st1 rest
    | out => out

/-- _removeEntities from sessionImpl.ts: iterates the walked entity list
in reverse order, stopping at the first error. -/
def _removeEntities (env : Env) (st : SessionState) (entities : List EntityRef) : OpOutcome :=
  removeEntitiesLoop env st entities.reverse

-- Action bit values from sessionImpl.ts.
namespace Action

def Save : Nat := 0x00000001

def Remove : Nat := 0x00000002

def Detach : Nat := 0x00000004

def Flush : Nat := 0x00000008

def Clear : Nat := 0x00000010

def Find : Nat := 0x00000020

def Refresh : Nat := 0x00000040

def Merge : Nat := 0x00000080

def Fetch : Nat := 0x00000100

def All : Nat := Save ||| Remove ||| Detach ||| Flush ||| Clear ||| Find ||| Refresh ||| Merge ||| Fetch

end Action

/-- JS 32-bit bitwise complement (the tilde operator applied to a value
that fits in 32 bits). -/
def bitnot32 (x : Nat) : Nat := 0xFFFFFFFF ^^^ x

/-- A task pushed onto the TaskQueue: the action tag and the invalidates
mask passed to this._queue.add. -/
structure QueuedTask where
  action : Nat
  invalidates : Nat
deriving DecidableEq

/-- The task enqueued by SessionImpl.save. -/
def saveTask : QueuedTask := ⟨Action.Save, Action.All &&& bitnot32 Action.Save⟩

/-- The task enqueued by SessionImpl.remove. -/
def removeTask : QueuedTask := ⟨Action.Remove, Action.All &&& bitnot32 Action.Remove⟩

/-- The task enqueued by SessionImpl.refresh. -/
def refreshTask : QueuedTask := ⟨Action.Refresh, Action.All &&& bitnot32 Action.Refresh⟩

/-- The task enqueued by SessionImpl.detach. -/
def detachTask : QueuedTask := ⟨Action.Detach, Action.All &&& bitnot32 Action.Detach⟩

/-- The task enqueued by SessionImpl.clear. -/
def clearTask : QueuedTask := ⟨Action.Clear, Action.All⟩

/-- The task enqueued by SessionImpl.flush. -/
def flushTask : QueuedTask := ⟨Action.Flush, Action.All⟩

/-- The task enqueued by SessionImpl.find. -/
def findTask : QueuedTask := ⟨Action.Find, Action.All &&& bitnot32 (Action.Find ||| Action.Fetch)⟩

/-- The task enqueued by SessionImpl.fetch. -/
def fetchTask : QueuedTask := ⟨Action.Fetch, Action.All &&& bitnot32 (Action.Find ||| Action.Fetch)⟩

/-- The list of all action tags. -/
def actionList : List Nat :=
  [Action.Save, Action.Remove, Action.Detach, Action.Flush, Action.Clear,
   Action.Find, Action.Refresh, Action.Merge, Action.Fetch]

/-- Which private handler the switch statement in _execute runs for a
given action tag; nothing when no case of the switch matches (the switch
has no default, so the method returns without ever invoking the task
callback). -/
inductive Dispatched
  | save
  | remove
  | detach
  | clear
  | flush
  | find
  | fetch
  | nothing
deriving DecidableEq

/-- _execute from sessionImpl.ts: the dispatch switch run by the
TaskQueue for each dequeued task. -/
def _execute (action : Nat) : Dispatched :=
  if action = Action.Save then .save
  else if action = Action.Remove then .remove
  else if action = Action.Detach then .detach
  else if action = Action.Clear then .clear
  else if action = Action.Flush then .flush
  else if action = Action.Find then .find
  else if action = Action.Fetch then .fetch
  else .nothing

/-- What _fetchPaths does: either it schedules the completion callback
with the given result on the next tick, or it returns without doing
anything at all (no path dereferencing, no callback). -/
inductive FetchOutcome
  | scheduled (result : EntityRef)
  | noAction
deriving DecidableEq

/-- _fetchPaths from sessionImpl.ts: schedules callback(null, obj) when
the paths argument is missing or empty; the body after that if statement
is empty, so for a non-empty paths array the function returns without
any action. -/
def _fetchPaths (obj : EntityRef) (paths : Option (List String)) : FetchOutcome :=
  match paths with
  | none => .scheduled obj
  | some ps => if ps.length = 0 then .scheduled obj else .noAction

/-- The first argument of _fetch: a live entity, or a Reference whose
resolution (an external persister load) has the given outcome. -/
inductive FetchTarget
  | entity (obj : EntityRef)
  | reference (resolution : Except Err EntityRef)

/-- _fetch from sessionImpl.ts: resolves a Reference first (propagating a
resolution error to the callback), then hands the entity to _fetchPaths. -/
def _fetch : FetchTarget → Option (List String) → Except Err FetchOutcome
  | .entity obj, paths => .ok (_fetchPaths obj paths)
  | .reference res, paths =>
    match res with
    | .error e => .error e
    | .ok entity => .ok (_fetchPaths entity paths)

/-- The condition of the dirty-check pass in _flush: the link is
scheduled for DirtyCheck, or its persister uses DeferredImplicit change
tracking and no operation is scheduled. -/
def needsDirtyCheck (links : ObjectLinks) : Bool :=
  links.scheduledOperation == .DirtyCheck
    || (links.persister.changeTracking == .DeferredImplicit
        && links.scheduledOperation == .None)

/-- The result of one batch-assembly pass of _flush: the error that
aborted the pass (if any), the table entries after the in-place mutations
made so far, and the operations appended to the batch. -/
structure PassOut where
  error : Option Err
  links : List (Ident × ObjectLinks)
  ops : List BatchOp

/-- The dirty-check pass of _flush: for every link satisfying
needsDirtyCheck, calls persister.dirtyCheck on the live object and the
original document; an error aborts the pass immediately, otherwise the
returned snapshot replaces originalDocument and the appended update
operation (zero or one) goes into the batch. -/
def dirtyCheckPass : List (Ident × ObjectLinks) → PassOut
  | [] => ⟨none, [], []⟩
  | e :: rest =>
    if needsDirtyCheck e.2 then
      let result := e.2.persister.dirtyCheck e.2.object e.2.originalDocument
      match result.error with
      | some err => ⟨some err, e :: rest, []⟩
      | none =>
        let out := dirtyCheckPass rest
        ⟨out.error,
         (e.1, { e.2 with originalDocument := some result.value }) :: out.links,
         (result.updateOp.map BatchOp.update).toList ++ out.ops⟩
    else
      let out := dirtyCheckPass rest
      ⟨out.error, e :: out.links, out.ops⟩

/-- The insert pass of _flush: for every link scheduled for Insert, calls
persister.insert on the live object; an error aborts the pass, otherwise
the freshly built document replaces originalDocument and the appended
insert operation goes into the batch. -/
def insertPass : List (Ident × ObjectLinks) → PassOut
  | [] => ⟨none, [], []⟩
  | e :: rest =>
    if e.2.scheduledOperation == .Insert then
      let result := e.2.persister.insert e.2.object
      match result.error with
      | some err => ⟨some err, e :: rest, []⟩
      | none =>
        let out := insertPass rest
        ⟨out.error,
         (e.1, { e.2 with originalDocument := some result.value }) :: out.links,
         BatchOp.insert result.insertOp :: out.ops⟩
    else
      let out := insertPass rest
      ⟨out.error, e :: out.links, out.ops⟩

/-- The delete pass of _flush: persister.remove appends one delete
operation for every link scheduled for Delete. -/
def deletePass : List (Ident × ObjectLinks) → List BatchOp
  | [] => []
  | e :: rest =>
    if e.2.scheduledOperation == .Delete then
      BatchOp.delete e.2.object :: deletePass rest
    else
      deletePass rest

/-- The reconciliation loop run after batch.execute succeeds: every link
scheduled for Delete is unlinked (which also deletes the entity's _id,
because its state is Removed), and the scheduled operation of every link
record is cleared — for an unlinked record the write mutates a record
that is no longer in the table, so only the surviving entries show it. -/
def reconcileLoop : List (Ident × ObjectLinks) → SessionState → SessionState
  | [], st => st
  | e :: rest, st =>
    if e.2.scheduledOperation == .Delete then
      reconcileLoop rest (_unlinkObject st e.2)
    else
      reconcileLoop rest (setLinks st e.1 { e.2 with scheduledOperation := .None })

/-- The outcome of _flush: the error delivered to the callback (if any),
the session state when the callback fires, and the operations that were
appended to the batch. -/
structure FlushResult where
  error : Option Err
  st : SessionState
  batch : List BatchOp

/-- _flush from sessionImpl.ts: snapshots the table as a list, assembles
the batch in three passes grouped by operation kind (dirty checks, then
inserts, then deletes), executes the batch (execError is the externally
determined outcome of batch.execute), and on success unlinks every
deleted entity and clears all scheduled operations.  A persister error
during assembly or a batch error is delivered to the callback with no
reconciliation. -/
def _flush (st : SessionState) (execError : Option Err) : FlushResult :=
  let d := dirtyCheckPass st.objectLinks
  match d.error with
  | some e => ⟨some e, { st with objectLinks := d.links }, d.ops⟩
  | none =>
    let ins := insertPass d.links
    match ins.error with
    | some e => ⟨some e, { st with objectLinks := ins.links }, d.ops ++ ins.ops⟩
    | none =>
      let batch := d.ops ++ ins.ops ++ deletePass ins.links
      match execError with
      | some e => ⟨some e, { st with objectLinks := ins.links }, batch⟩
      | none =>
        ⟨none, reconcileLoop ins.links { st with objectLinks := ins.links }, batch⟩

/-- The fields of a table entry that batch assembly never modifies: the
key, the lifecycle state, the scheduled operation and the live object. -/
def entrySkel (e : Ident × ObjectLinks) : Ident × ObjectState × ScheduledOperation × EntityRef :=
  (e.1, e.2.state, e.2.scheduledOperation, e.2.object)

/-- What the dirty-check pass does to a single table entry when no
persister call fails. -/
def dirtyEntry (e : Ident × ObjectLinks) : Ident × ObjectLinks :=
  if needsDirtyCheck e.2 then
    let v := (e.2.persister.dirtyCheck e.2.object e.2.originalDocument).value
    (e.1, { e.2 with originalDocument := some v })
  else e

/-- What the insert pass does to a single table entry when no persister
call fails. -/
def insertEntry (e : Ident × ObjectLinks) : Ident × ObjectLinks :=
  if e.2.scheduledOperation == .Insert then
    (e.1, { e.2 with originalDocument := some (e.2.persister.insert e.2.object).value })
  else e

/-- What reconciliation does to a single surviving table entry: a
Delete-scheduled entry disappears, every other entry keeps its record
with the scheduled operation cleared. -/
def reconEntry (e : Ident × ObjectLinks) : Option (Ident × ObjectLinks) :=
  if e.2.scheduledOperation == .Delete then none
  else some (e.1, { e.2 with scheduledOperation := .None })

/-- A concrete persister used by witness states: Observe change
tracking, fresh identifiers starting at 100, a dirty check that appends
one update (document 7) and returns snapshot 3, and an insert that
appends document 9 and returns snapshot 4. -/
def pObserve : Persister :=
  { changeTracking := .Observe,
    generate := fun n => 100 + n,
    dirtyCheck := fun _ _ => ⟨some 7, 3, none⟩,
    insert := fun _ => ⟨9, 4, none⟩ }

/-- The error returned by the failing witness persister. -/
def errDirtyFailed : Err := "dirty check failed"

/-- A concrete persister whose dirtyCheck fails. -/
def pDirtyFails : Persister :=
  { changeTracking := .Observe,
    generate := fun n => 100 + n,
    dirtyCheck := fun _ _ => ⟨none, 0, some errDirtyFailed⟩,
    insert := fun _ => ⟨9, 4, none⟩ }

/-- Witness link: managed, scheduled for a dirty check, object 0. -/
def linkDirtyW : ObjectLinks := ⟨.Managed, .DirtyCheck, 0, some 1, pObserve⟩

/-- Witness link: managed, scheduled for insert, object 1. -/
def linkInsW : ObjectLinks := ⟨.Managed, .Insert, 1, none, pObserve⟩

/-- Witness link: removed, scheduled for delete, object 2. -/
def linkDelW : ObjectLinks := ⟨.Removed, .Delete, 2, some 2, pObserve⟩

/-- A concrete session state holding one dirty-check link, one insert
link and one delete link. -/
def stFlushW : SessionState :=
  { objectLinks := [(10, linkDirtyW), (11, linkInsW), (12, linkDelW)],
    heap := fun r => if r = 0 then some 10 else if r = 1 then some 11
      else if r = 2 then some 12 else none,
    genCount := 0 }

/-- The batch error used by witness states. -/
def batchErrW : Err := "batch execute failed"

/-- A witness environment in which every object type is mapped and
resolves to the concrete persister. -/
def envW : Env := { persisterOf := fun _ => some pObserve }

/-- Witness link: managed and scheduled for Insert (never persisted),
object 3. -/
def linkC7W : ObjectLinks := ⟨.Managed, .Insert, 3, none, pObserve⟩

/-- A concrete session state holding only the never-persisted link. -/
def stC7W : SessionState :=
  { objectLinks := [(20, linkC7W)],
    heap := fun r => if r = 3 then some 20 else none,
    genCount := 0 }

/-- A concrete session state with an empty table and one entity (0) that
carries a manually assigned identifier 5 — the detached scenario. -/
def stDetW : SessionState :=
  { objectLinks := [],
    heap := fun r => if r = 0 then some 5 else none,
    genCount := 0 }

/-- A concrete fetch path used by witnesses. -/
def pathW : String := "children"

/-- C1: the claim reads refresh as walking the cascade-refresh graph,
reloading the document of every Managed link and completing the callback.
The session never gets there: the switch in _execute has no case for
Action.Refresh (and none for Merge either), so the task enqueued by the
public refresh method dispatches no handler at all — _refresh and
_refreshEntities are dead code — and the completion callback is never
invoked, while every other public operation dispatches its handler. -/
theorem refresh_action_never_dispatched :
    _execute refreshTask.action = Dispatched.nothing
      ∧ refreshTask.action = Action.Refresh
      ∧ _execute saveTask.action = Dispatched.save
      ∧ _execute removeTask.action = Dispatched.remove
      ∧ _execute detachTask.action = Dispatched.detach
      ∧ _execute clearTask.action = Dispatched.clear
      ∧ _execute flushTask.action = Dispatched.flush
      ∧ _execute findTask.action = Dispatched.find
      ∧ _execute fetchTask.action = Dispatched.fetch := by
  decide

/-- C8: every public operation is enqueued with its claimed invalidates
mask: save excludes every action except Save; remove, refresh and detach
each exclude every action except themselves; flush and clear exclude all
actions; find and fetch exclude every action other than Find and Fetch,
so the two reads do not exclude each other. -/
theorem enqueue_invalidates_masks :
    (saveTask.action = Action.Save
        ∧ ∀ a ∈ actionList, (saveTask.invalidates &&& a ≠ 0 ↔ a ≠ Action.Save))
      ∧ (removeTask.action = Action.Remove
        ∧ ∀ a ∈ actionList, (removeTask.invalidates &&& a ≠ 0 ↔ a ≠ Action.Remove))
      ∧ (refreshTask.action = Action.Refresh
        ∧ ∀ a ∈ actionList, (refreshTask.invalidates &&& a ≠ 0 ↔ a ≠ Action.Refresh))
      ∧ (detachTask.action = Action.Detach
        ∧ ∀ a ∈ actionList, (detachTask.invalidates &&& a ≠ 0 ↔ a ≠ Action.Detach))
      ∧ (flushTask.action = Action.Flush
        ∧ ∀ a ∈ actionList, flushTask.invalidates &&& a ≠ 0)
      ∧ (clearTask.action = Action.Clear
        ∧ ∀ a ∈ actionList, clearTask.invalidates &&& a ≠ 0)
      ∧ (findTask.action = Action.Find
        ∧ ∀ a ∈ actionList,
            (findTask.invalidates &&& a ≠ 0 ↔ (a ≠ Action.Find ∧ a ≠ Action.Fetch)))
      ∧ (fetchTask.action = Action.Fetch
        ∧ ∀ a ∈ actionList,
            (fetchTask.invalidates &&& a ≠ 0 ↔ (a ≠ Action.Find ∧ a ≠ Action.Fetch))) := by
  decide

/-- C9: _fetchPaths schedules the completion callback exactly when the
paths argument is missing or empty; for a non-empty paths array it
performs no dereferencing and never invokes the callback, including after
a successful Reference resolution inside _fetch. -/
theorem fetchPaths_nonempty_never_completes :
    ∀ (obj entity : EntityRef) (p : String) (ps : List String),
      _fetchPaths obj none = FetchOutcome.scheduled obj
        ∧ _fetchPaths obj (some []) = FetchOutcome.scheduled obj
        ∧ _fetchPaths obj (some (p :: ps)) = FetchOutcome.noAction
        ∧ _fetch (FetchTarget.reference (Except.ok entity)) (some (p :: ps))
            = Except.ok FetchOutcome.noAction := by
  intro obj entity p ps
  refine ⟨rfl, rfl, ?_, ?_⟩ <;> simp [_fetchPaths, _fetch]

/-- Batch assembly never modifies the key, state, scheduled operation or
live object of a table entry: the dirty-check pass preserves the entry
skeletons, also when it aborts with an error. -/
theorem dirtyCheckPass_skel (t : List (Ident × ObjectLinks)) :
    ((dirtyCheckPass t).links).map entrySkel = t.map entrySkel := by
  induction t with
  | nil => rfl
  | cons e rest ih =>
    by_cases h : needsDirtyCheck e.2
    · cases herr : (e.2.persister.dirtyCheck e.2.object e.2.originalDocument).error with
      | some err => simp [dirtyCheckPass, h, herr]
      | none => simp [dirtyCheckPass, h, herr, entrySkel, ih]
    · simp [dirtyCheckPass, h, entrySkel, ih]

/-- The insert pass preserves the entry skeletons, also when it aborts
with an error. -/
theorem insertPass_skel (t : List (Ident × ObjectLinks)) :
    ((insertPass t).links).map entrySkel = t.map entrySkel := by
  induction t with
  | nil => rfl
  | cons e rest ih =>
    by_cases h : e.2.scheduledOperation == ScheduledOperation.Insert
    · cases herr : (e.2.persister.insert e.2.object).error with
      | some err => simp [insertPass, h, herr]
      | none => simp [insertPass, h, herr, entrySkel, ih]
    · simp [insertPass, h, entrySkel, ih]

/-- Every operation the dirty-check pass appends to the batch is an
update. -/
theorem dirtyCheckPass_ops_update (t : List (Ident × ObjectLinks)) :
    ∀ op ∈ (dirtyCheckPass t).ops, ∃ d, op = BatchOp.update d := by
  induction t with
  | nil => intro op hop; simp [dirtyCheckPass] at hop
  | cons e rest ih =>
    intro op hop
    by_cases h : needsDirtyCheck e.2
    · cases herr : (e.2.persister.dirtyCheck e.2.object e.2.originalDocument).error with
      | some err => simp [dirtyCheckPass, h, herr] at hop
      | none =>
        simp [dirtyCheckPass, h, herr] at hop
        rcases hop with hop | hop
        · cases hupd : (e.2.persister.dirtyCheck e.2.object e.2.originalDocument).updateOp with
          | none => rw [hupd] at hop; simp at hop
          | some d => rw [hupd] at hop; simp at hop; exact ⟨d, hop.symm⟩
        · exact ih op hop
    · simp [dirtyCheckPass, h] at hop
      exact ih op hop

/-- Every operation the insert pass appends to the batch is an insert. -/
theorem insertPass_ops_insert (t : List (Ident × ObjectLinks)) :
    ∀ op ∈ (insertPass t).ops, ∃ d, op = BatchOp.insert d := by
  induction t with
  | nil => intro op hop; simp [insertPass] at hop
  | cons e rest ih =>
    intro op hop
    by_cases h : e.2.scheduledOperation == ScheduledOperation.Insert
    · cases herr : (e.2.persister.insert e.2.object).error with
      | some err => simp [insertPass, h, herr] at hop
      | none =>
        simp [insertPass, h, herr] at hop
        rcases hop with hop | hop
        · exact ⟨(e.2.persister.insert e.2.object).insertOp, hop⟩
        · exact ih op hop
    · simp [insertPass, h] at hop
      exact ih op hop

/-- Every operation the delete pass appends is the delete of the live
object of a table entry scheduled for Delete. -/
theorem deletePass_ops_delete (t : List (Ident × ObjectLinks)) :
    ∀ op ∈ deletePass t,
      ∃ e ∈ t, e.2.scheduledOperation = ScheduledOperation.Delete
        ∧ op = BatchOp.delete e.2.object := by
  induction t with
  | nil => intro op hop; simp [deletePass] at hop
  | cons e rest ih =>
    intro op hop
    by_cases h : e.2.scheduledOperation == ScheduledOperation.Delete
    · simp [deletePass, h] at hop
      rcases hop with hop | hop
      · exact ⟨e, by simp, by simpa using h, hop⟩
      · rcases ih op hop with ⟨e1, he1, hsched, hdel⟩
        exact ⟨e1, by simp [he1], hsched, hdel⟩
    · simp [deletePass, h] at hop
      rcases ih op hop with ⟨e1, he1, hsched, hdel⟩
      exact ⟨e1, by simp [he1], hsched, hdel⟩

/-- The delete pass appends exactly one delete per Delete-scheduled
entry, in table order. -/
theorem deletePass_eq (t : List (Ident × ObjectLinks)) :
    deletePass t
      = (t.filter fun e => e.2.scheduledOperation == ScheduledOperation.Delete).map
          (fun e => BatchOp.delete e.2.object) := by
  induction t with
  | nil => rfl
  | cons e rest ih =>
    by_cases h : e.2.scheduledOperation == ScheduledOperation.Delete
    · simp [deletePass, List.filter_cons, h, ih]
    · simp [deletePass, List.filter_cons, h, ih]

/-- When no persister call fails, the dirty-check pass rewrites exactly
the needsDirtyCheck entries (storing the returned snapshot as the new
originalDocument) and appends the update produced for each of them. -/
theorem dirtyCheckPass_ok (t : List (Ident × ObjectLinks))
    (h : (dirtyCheckPass t).error = none) :
    (dirtyCheckPass t).links = t.map dirtyEntry
      ∧ (dirtyCheckPass t).ops
        = (t.filter fun e => needsDirtyCheck e.2).filterMap
            (fun e => Option.map BatchOp.update
              (e.2.persister.dirtyCheck e.2.object e.2.originalDocument).updateOp) := by
  induction t with
  | nil => exact ⟨rfl, rfl⟩
  | cons e rest ih =>
    by_cases hc : needsDirtyCheck e.2
    · cases herr : (e.2.persister.dirtyCheck e.2.object e.2.originalDocument).error with
      | some err => simp [dirtyCheckPass, hc, herr] at h
      | none =>
        have hrest : (dirtyCheckPass rest).error = none := by
          simp [dirtyCheckPass, hc, herr] at h; exact h
        rcases ih hrest with ⟨hl, ho⟩
        constructor
        · simp [dirtyCheckPass, hc, herr, hl, dirtyEntry]
        · simp [dirtyCheckPass, hc, herr, ho, List.filter_cons, List.filterMap_cons]
          cases hupd : (e.2.persister.dirtyCheck e.2.object e.2.originalDocument).updateOp with
          | none => simp
          | some d => simp
    · have hrest : (dirtyCheckPass rest).error = none := by
        simp [dirtyCheckPass, hc] at h; exact h
      rcases ih hrest with ⟨hl, ho⟩
      constructor
      · simp [dirtyCheckPass, hc, hl, dirtyEntry]
      · simp [dirtyCheckPass, hc, ho, List.filter_cons]

/-- When no persister call fails, the insert pass rewrites exactly the
Insert-scheduled entries (storing the freshly built document) and
appends one insert per such entry, in table order. -/
theorem insertPass_ok (t : List (Ident × ObjectLinks))
    (h : (insertPass t).error = none) :
    (insertPass t).links = t.map insertEntry
      ∧ (insertPass t).ops
        = (t.filter fun e => e.2.scheduledOperation == ScheduledOperation.Insert).map
            (fun e => BatchOp.insert (e.2.persister.insert e.2.object).insertOp) := by
  induction t with
  | nil => exact ⟨rfl, rfl⟩
  | cons e rest ih =>
    by_cases hc : e.2.scheduledOperation == ScheduledOperation.Insert
    · cases herr : (e.2.persister.insert e.2.object).error with
      | some err => simp [insertPass, hc, herr] at h
      | none =>
        have hrest : (insertPass rest).error = none := by
          simp [insertPass, hc, herr] at h; exact h
        rcases ih hrest with ⟨hl, ho⟩
        constructor
        · simp [insertPass, hc, herr, hl, insertEntry]
        · simp [insertPass, hc, herr, ho, List.filter_cons]
    · have hrest : (insertPass rest).error = none := by
        simp [insertPass, hc] at h; exact h
      rcases ih hrest with ⟨hl, ho⟩
      constructor
      · simp [insertPass, hc, hl, insertEntry]
      · simp [insertPass, hc, ho, List.filter_cons]

/-- C4: flush assembles the batch in three strictly ordered passes over
the snapshot taken at flush entry — dirty checks for exactly the links
scheduled for DirtyCheck or implicitly tracked with nothing scheduled
(each such link getting the returned snapshot as its new
originalDocument), then one insert per Insert-scheduled link, then one
delete per Delete-scheduled link — so in the assembled batch every
update precedes every insert, and every insert precedes every delete. -/
theorem flush_three_ordered_passes (st : SessionState) (ex : Option Err)
    (h1 : (dirtyCheckPass st.objectLinks).error = none)
    (h2 : (insertPass (dirtyCheckPass st.objectLinks).links).error = none) :
    (_flush st ex).batch
        = (dirtyCheckPass st.objectLinks).ops
          ++ (insertPass (dirtyCheckPass st.objectLinks).links).ops
          ++ deletePass (insertPass (dirtyCheckPass st.objectLinks).links).links
      ∧ (dirtyCheckPass st.objectLinks).links = st.objectLinks.map dirtyEntry
      ∧ (dirtyCheckPass st.objectLinks).ops
          = (st.objectLinks.filter fun e => needsDirtyCheck e.2).filterMap
              (fun e => Option.map BatchOp.update
                (e.2.persister.dirtyCheck e.2.object e.2.originalDocument).updateOp)
      ∧ (insertPass (dirtyCheckPass st.objectLinks).links).ops
          = ((st.objectLinks.map dirtyEntry).filter
                fun e => e.2.scheduledOperation == ScheduledOperation.Insert).map
              (fun e => BatchOp.insert (e.2.persister.insert e.2.object).insertOp)
      ∧ deletePass (insertPass (dirtyCheckPass st.objectLinks).links).links
          = ((insertPass (dirtyCheckPass st.objectLinks).links).links.filter
                fun e => e.2.scheduledOperation == ScheduledOperation.Delete).map
              (fun e => BatchOp.delete e.2.object)
      ∧ (∀ op ∈ (dirtyCheckPass st.objectLinks).ops, ∃ d, op = BatchOp.update d)
      ∧ (∀ op ∈ (insertPass (dirtyCheckPass st.objectLinks).links).ops,
            ∃ d, op = BatchOp.insert d)
      ∧ (∀ op ∈ deletePass (insertPass (dirtyCheckPass st.objectLinks).links).links,
            ∃ r, op = BatchOp.delete r) := by
  rcases dirtyCheckPass_ok st.objectLinks h1 with ⟨hdl, hdo⟩
  rcases insertPass_ok (dirtyCheckPass st.objectLinks).links h2 with ⟨_, hio⟩
  refine ⟨?_, hdl, hdo, by rw [hio, hdl], deletePass_eq _, ?_, ?_, ?_⟩
  · cases ex <;> simp [_flush, h1, h2]
  · exact dirtyCheckPass_ops_update st.objectLinks
  · exact insertPass_ops_insert (dirtyCheckPass st.objectLinks).links
  · intro op hop
    rcases deletePass_ops_delete _ op hop with ⟨e, _, _, hdel⟩
    exact ⟨e.2.object, hdel⟩

/-- Witness for C4: on the concrete three-link state the assembly
succeeds and the batch is the update, then the insert, then the delete. -/
theorem flush_three_ordered_passes_witness :
    (_flush stFlushW none).batch = [BatchOp.update 7, BatchOp.insert 9, BatchOp.delete 2] :=
  ((flush_three_ordered_passes stFlushW none rfl rfl).1).trans rfl

/-- Matching table entries of two tables with equal skeletons have the
same state, scheduled operation and object under lookup. -/
theorem tableLookup_of_skel_eq (t1 t2 : List (Ident × ObjectLinks))
    (h : t1.map entrySkel = t2.map entrySkel) (k : Ident) :
    ((tableLookup t1 k).map fun l => (l.state, l.scheduledOperation, l.object))
      = ((tableLookup t2 k).map fun l => (l.state, l.scheduledOperation, l.object)) := by
  induction t1 generalizing t2 with
  | nil => cases t2 with
    | nil => rfl
    | cons e2 r2 => simp at h
  | cons e1 r1 ih =>
    cases t2 with
    | nil => simp at h
    | cons e2 r2 =>
      simp only [List.map_cons, List.cons.injEq, entrySkel, Prod.mk.injEq] at h
      rcases h with ⟨⟨hk, hs, ho, hb⟩, hrest⟩
      by_cases hke : e1.1 = k
      · simp [tableLookup, hke, hk ▸ hke, hs, ho, hb]
      · rw [tableLookup, tableLookup, if_neg hke, if_neg (hk ▸ hke), ih r2 hrest]

/-- C5: when flush fails — a persister dirtyCheck or insert error during
assembly, or a batch execution error — the identity table keeps exactly
the entries it had at flush entry (same keys, same order, same state,
same scheduled operation, same object: in particular no operation is
reset to None and no Delete-scheduled link is unlinked), and no entity
identity attribute changes. -/
theorem flush_error_preserves_schedule (st : SessionState) (ex : Option Err) (e : Err)
    (herr : (_flush st ex).error = some e) :
    ((_flush st ex).st.objectLinks).map entrySkel = st.objectLinks.map entrySkel
      ∧ (_flush st ex).st.heap = st.heap
      ∧ ∀ k, ((tableLookup (_flush st ex).st.objectLinks k).map
            fun l => (l.state, l.scheduledOperation, l.object))
          = ((tableLookup st.objectLinks k).map
            fun l => (l.state, l.scheduledOperation, l.object)) := by
  have hskel : ((_flush st ex).st.objectLinks).map entrySkel
      = st.objectLinks.map entrySkel := by
    cases hd : (dirtyCheckPass st.objectLinks).error with
    | some e1 => simpa [_flush, hd] using dirtyCheckPass_skel st.objectLinks
    | none =>
      cases hi : (insertPass (dirtyCheckPass st.objectLinks).links).error with
      | some e2 =>
        simp only [_flush, hd, hi]
        rw [insertPass_skel, dirtyCheckPass_skel]
      | none =>
        cases ex with
        | some e3 =>
          simp only [_flush, hd, hi]
          rw [insertPass_skel, dirtyCheckPass_skel]
        | none => simp [_flush, hd, hi] at herr
  have hheap : (_flush st ex).st.heap = st.heap := by
    cases hd : (dirtyCheckPass st.objectLinks).error with
    | some e1 => simp [_flush, hd]
    | none =>
      cases hi : (insertPass (dirtyCheckPass st.objectLinks).links).error with
      | some e2 => simp [_flush, hd, hi]
      | none =>
        cases ex with
        | some e3 => simp [_flush, hd, hi]
        | none => simp [_flush, hd, hi] at herr
  exact ⟨hskel, hheap, tableLookup_of_skel_eq _ _ hskel⟩

/-- Witness for C5: on the concrete three-link state with a failing
batch execution, flush reports the batch error and the Delete-scheduled
entry is still in the table with its Delete operation intact. -/
theorem flush_error_preserves_schedule_witness :
    ((_flush stFlushW (some batchErrW)).error = some batchErrW)
      ∧ ((tableLookup (_flush stFlushW (some batchErrW)).st.objectLinks 12).map
            fun l => (l.state, l.scheduledOperation, l.object))
          = some (ObjectState.Removed, ScheduledOperation.Delete, 2) :=
  ⟨rfl, ((flush_error_preserves_schedule stFlushW (some batchErrW) batchErrW rfl).2.2 12).trans rfl⟩

/-- Erasing a key that is not present leaves the table unchanged. -/
theorem tableErase_not_mem (t : List (Ident × ObjectLinks)) (k : Ident)
    (h : k ∉ t.map Prod.fst) : tableErase t k = t := by
  rw [tableErase, List.filter_eq_self]
  intro e he
  simp only [bne_iff_ne, ne_eq]
  exact fun heq => h (heq ▸ List.mem_map_of_mem Prod.fst he)

/-- Erasing distributes over table concatenation. -/
theorem tableErase_append (t1 t2 : List (Ident × ObjectLinks)) (k : Ident) :
    tableErase (t1 ++ t2) k = tableErase t1 k ++ tableErase t2 k := by
  simp [tableErase]

/-- Erasing the head key of a table whose tail does not repeat it drops
exactly the head. -/
theorem tableErase_cons_self (e : Ident × ObjectLinks) (rest : List (Ident × ObjectLinks))
    (h : e.1 ∉ rest.map Prod.fst) : tableErase (e :: rest) e.1 = rest := by
  rw [tableErase, List.filter_cons]
  simp only [bne_self_eq_false, Bool.false_eq_true, if_false]
  exact tableErase_not_mem rest e.1 h

/-- Updating a key that is not present leaves the table unchanged. -/
theorem mapSet_not_mem (t : List (Ident × ObjectLinks)) (k : Ident) (l : ObjectLinks)
    (h : k ∉ t.map Prod.fst) :
    t.map (fun x => if x.1 = k then (k, l) else x) = t := by
  induction t with
  | nil => rfl
  | cons e rest ih =>
    have hk : ¬(e.1 = k) := fun heq => h (by simp [heq])
    simp only [List.map_cons, if_neg hk]
    rw [ih (fun hm => h (by simp [hm]))]

/-- A table lookup misses exactly when the key is absent. -/
theorem tableLookup_eq_none (t : List (Ident × ObjectLinks)) (k : Ident) :
    tableLookup t k = none ↔ k ∉ t.map Prod.fst := by
  induction t with
  | nil => simp [tableLookup]
  | cons e rest ih =>
    by_cases hk : e.1 = k
    · simp [tableLookup, hk]
    · simp [tableLookup, hk, ih, Ne.symm hk]

/-- Two entries of a table with no repeated keys that share a key are the
same entry. -/
theorem entries_eq_of_key (t : List (Ident × ObjectLinks))
    (hnd : (t.map Prod.fst).Nodup) (a b : Ident × ObjectLinks)
    (ha : a ∈ t) (hb : b ∈ t) (hk : a.1 = b.1) : a = b := by
  induction t with
  | nil => simp at ha
  | cons e rest ih =>
    rcases List.mem_cons.mp ha with rfl | ha1
    · rcases List.mem_cons.mp hb with rfl | hb1
      · rfl
      · exact absurd (hk ▸ List.mem_map_of_mem Prod.fst hb1) (List.nodup_cons.mp (by simpa using hnd)).1
    · rcases List.mem_cons.mp hb with rfl | hb1
      · exact absurd (hk ▸ List.mem_map_of_mem Prod.fst ha1) (List.nodup_cons.mp (by simpa using hnd)).1
      · exact ih (List.nodup_cons.mp (by simpa using hnd)).2 ha1 hb1

/-- In a well-formed table (each entry keyed by its live object's
identifier, no repeated keys) the live objects of distinct entries are
distinct. -/
theorem objects_nodup (t : List (Ident × ObjectLinks)) (heap : EntityRef → Option Ident)
    (hwf : ∀ e ∈ t, heap e.2.object = some e.1)
    (hnd : (t.map Prod.fst).Nodup) :
    (t.map fun e => e.2.object).Nodup := by
  induction t with
  | nil => simp
  | cons e rest ih =>
    rw [List.map_cons, List.nodup_cons]
    constructor
    · intro hmem
      rcases List.mem_map.mp hmem with ⟨e1, he1, hobj⟩
      have h1 : heap e1.2.object = some e1.1 := hwf e1 (List.mem_cons_of_mem _ he1)
      have h2 : heap e.2.object = some e.1 := hwf e (List.mem_cons_self _ _)
      rw [hobj] at h1
      rw [h1] at h2
      have : e.1 ∈ rest.map Prod.fst := by
        rcases Option.some.injEq _ _ ▸ h2 with hk
        exact (Option.some_inj.mp h2) ▸ List.mem_map_of_mem Prod.fst he1
      exact (List.nodup_cons.mp (by simpa using hnd)).1 this
    · exact ih (fun x hx => hwf x (List.mem_cons_of_mem _ hx))
        (List.nodup_cons.mp (by simpa using hnd)).2

/-- Tables with equal skeletons have pointwise matching entries. -/
theorem skel_mem (t1 t2 : List (Ident × ObjectLinks))
    (h : t1.map entrySkel = t2.map entrySkel) :
    ∀ e ∈ t1, ∃ e0 ∈ t2, e0.1 = e.1 ∧ e0.2.state = e.2.state
      ∧ e0.2.scheduledOperation = e.2.scheduledOperation ∧ e0.2.object = e.2.object := by
  intro e he
  have hm : entrySkel e ∈ t2.map entrySkel := h ▸ List.mem_map_of_mem entrySkel he
  rcases List.mem_map.mp hm with ⟨e0, he0, heq⟩
  simp only [entrySkel, Prod.mk.injEq] at heq
  exact ⟨e0, he0, heq.1, heq.2.1, heq.2.2.1, heq.2.2.2⟩

/-- Equal skeletons give equal key lists. -/
theorem skel_keys_eq (t1 t2 : List (Ident × ObjectLinks))
    (h : t1.map entrySkel = t2.map entrySkel) :
    t1.map Prod.fst = t2.map Prod.fst := by
  have h1 : (t1.map entrySkel).map Prod.fst = (t2.map entrySkel).map Prod.fst := by rw [h]
  simpa [List.map_map, Function.comp, entrySkel] using h1

/-- Equal skeletons give equal live-object lists. -/
theorem skel_objects_eq (t1 t2 : List (Ident × ObjectLinks))
    (h : t1.map entrySkel = t2.map entrySkel) :
    (t1.map fun e => e.2.object) = (t2.map fun e => e.2.object) := by
  have h1 : (t1.map entrySkel).map (fun x => x.2.2.2) = (t2.map entrySkel).map (fun x => x.2.2.2) := by
    rw [h]
  simpa [List.map_map, Function.comp, entrySkel] using h1

/-- Every entry surviving reconciliation has its scheduled operation
cleared. -/
theorem reconEntry_mem (t : List (Ident × ObjectLinks)) :
    ∀ e ∈ t.filterMap reconEntry, e.2.scheduledOperation = ScheduledOperation.None := by
  intro e he
  rcases List.mem_filterMap.mp he with ⟨a, _, ha⟩
  by_cases hd : a.2.scheduledOperation == ScheduledOperation.Delete
  · simp [reconEntry, hd] at ha
  · simp only [reconEntry, hd, Bool.false_eq_true, if_false, Option.some.injEq] at ha
    rw [← ha]

/-- What the reconciliation loop does to a well-formed table: every
Delete-scheduled entry of the snapshot is unlinked and its entity's
identity attribute deleted; every other entry survives with its
scheduled operation cleared; no other identity attribute changes. -/
theorem reconcileLoop_spec :
    ∀ (snap done : List (Ident × ObjectLinks)) (st : SessionState),
      st.objectLinks = done ++ snap →
      (∀ e ∈ snap, st.heap e.2.object = some e.1) →
      ((done ++ snap).map Prod.fst).Nodup →
      (∀ e ∈ snap, e.2.scheduledOperation = ScheduledOperation.Delete →
        e.2.state = ObjectState.Removed) →
      ((snap.map fun e => e.2.object).Nodup) →
      (reconcileLoop snap st).objectLinks = done ++ snap.filterMap reconEntry
        ∧ (∀ e ∈ snap, e.2.scheduledOperation = ScheduledOperation.Delete →
            (reconcileLoop snap st).heap e.2.object = none)
        ∧ (∀ r, (∀ e ∈ snap, e.2.scheduledOperation = ScheduledOperation.Delete →
            e.2.object ≠ r) → (reconcileLoop snap st).heap r = st.heap r) := by
  intro snap
  induction snap with
  | nil =>
    intro done st htab _ _ _ _
    refine ⟨?_, by simp, by simp [reconcileLoop]⟩
    simpa [reconcileLoop] using htab
  | cons e rest ih =>
    intro done st htab hwf hnd hdel hobj
    have hwfe : st.heap e.2.object = some e.1 := hwf e (List.mem_cons_self _ _)
    rw [List.map_append, List.map_cons, List.nodup_append] at hnd
    rcases hnd with ⟨hnd1, hnd2, hdisj⟩
    have hkdone : e.1 ∉ done.map Prod.fst := fun hm => hdisj hm (List.mem_cons_self _ _)
    have hkrest : e.1 ∉ rest.map Prod.fst := (List.nodup_cons.mp hnd2).1
    have hndrest : ((done ++ rest).map Prod.fst).Nodup := by
      rw [List.map_append, List.nodup_append]
      exact ⟨hnd1, (List.nodup_cons.mp hnd2).2,
        fun a ha1 ha2 => hdisj ha1 (List.mem_cons_of_mem _ ha2)⟩
    have hobjhead : e.2.object ∉ rest.map (fun x => x.2.object) := (List.nodup_cons.mp (by simpa using hobj)).1
    have hobjrest : (rest.map fun x => x.2.object).Nodup := (List.nodup_cons.mp (by simpa using hobj)).2
    by_cases hD : e.2.scheduledOperation == ScheduledOperation.Delete
    · have hDel : e.2.scheduledOperation = ScheduledOperation.Delete := by simpa using hD
      have hRem : e.2.state = ObjectState.Removed := hdel e (List.mem_cons_self _ _) hDel
      have hloop : reconcileLoop (e :: rest) st = reconcileLoop rest (_unlinkObject st e.2) := by
        simp [reconcileLoop, hD]
      have hunlink : _unlinkObject st e.2
          = { st with
                objectLinks := done ++ rest
                heap := fun r => if r = e.2.object then none else st.heap r } := by
        have hcond : (e.2.scheduledOperation == ScheduledOperation.Insert
            || e.2.state == ObjectState.Removed) = true := by
          simp [hDel, hRem]
        have hres : tableErase st.objectLinks e.1 = done ++ rest := by
          rw [htab, tableErase_append, tableErase_not_mem done e.1 hkdone,
            tableErase_cons_self e rest hkrest]
        rw [_unlinkObject, hwfe]
        simp [hcond, hres]
      set st1 : SessionState :=
        { st with
            objectLinks := done ++ rest
            heap := fun r => if r = e.2.object then none else st.heap r } with hst1
      have hwf1 : ∀ x ∈ rest, st1.heap x.2.object = some x.1 := by
        intro x hx
        have hne : x.2.object ≠ e.2.object := by
          intro heq
          exact hobjhead (heq ▸ List.mem_map_of_mem (fun y => y.2.object) hx)
        simp only [hst1, if_neg hne]
        exact hwf x (List.mem_cons_of_mem _ hx)
      have hdel1 : ∀ x ∈ rest, x.2.scheduledOperation = ScheduledOperation.Delete →
          x.2.state = ObjectState.Removed :=
        fun x hx => hdel x (List.mem_cons_of_mem _ hx)
      rcases ih done st1 rfl hwf1 hndrest hdel1 hobjrest with ⟨ih1, ih2, ih3⟩
      rw [hloop, hunlink]
      refine ⟨?_, ?_, ?_⟩
      · rw [ih1, List.filterMap_cons]
        simp [reconEntry, hD]
      · intro x hx hxDel
        rcases List.mem_cons.mp hx with rfl | hx1
        · have hne : ∀ y ∈ rest, y.2.scheduledOperation = ScheduledOperation.Delete →
              y.2.object ≠ x.2.object := by
            intro y hy _ heq
            exact hobjhead (heq ▸ List.mem_map_of_mem (fun z => z.2.object) hy)
          rw [ih3 x.2.object hne]
          simp [hst1]
        · exact ih2 x hx1 hxDel
      · intro r hr
        have hrrest : ∀ y ∈ rest, y.2.scheduledOperation = ScheduledOperation.Delete →
            y.2.object ≠ r := fun y hy hyD => hr y (List.mem_cons_of_mem _ hy) hyD
        rw [ih3 r hrrest]
        have hne : e.2.object ≠ r := hr e (List.mem_cons_self _ _) hDel
        show (if r = e.2.object then none else st.heap r) = st.heap r
        exact if_neg (fun h => hne h.symm)
    · have hloop : reconcileLoop (e :: rest) st
          = reconcileLoop rest
              (setLinks st e.1 { e.2 with scheduledOperation := .None }) := by
        simp [reconcileLoop, hD]
      have hset : setLinks st e.1 { e.2 with scheduledOperation := .None }
          = { st with objectLinks :=
                (done ++ [(e.1, { e.2 with scheduledOperation := .None })]) ++ rest } := by
        rw [setLinks, htab]
        have hmap : (done ++ e :: rest).map
            (fun x => if x.1 = e.1 then (e.1, { e.2 with scheduledOperation := .None }) else x)
            = done ++ (e.1, { e.2 with scheduledOperation := .None }) :: rest := by
          rw [List.map_append, List.map_cons, if_pos rfl,
            mapSet_not_mem done e.1 _ hkdone, mapSet_not_mem rest e.1 _ hkrest]
        rw [hmap]
        simp
      set l' : ObjectLinks := { e.2 with scheduledOperation := .None } with hl'
      set st1 : SessionState :=
        { st with objectLinks := (done ++ [(e.1, l')]) ++ rest } with hst1
      have hwf1 : ∀ x ∈ rest, st1.heap x.2.object = some x.1 :=
        fun x hx => hwf x (List.mem_cons_of_mem _ hx)
      have hnd1 : (((done ++ [(e.1, l')]) ++ rest).map Prod.fst).Nodup := by
        rw [List.map_append, List.map_append, List.nodup_append]
        refine ⟨?_, (List.nodup_cons.mp hnd2).2, ?_⟩
        · rw [List.nodup_append]
          exact ⟨hnd1, by simp, by
            intro a ha1 ha2
            simp only [List.map_cons, List.map_nil, List.mem_singleton] at ha2
            exact hkdone (ha2 ▸ ha1)⟩
        · intro a ha1 ha2
          rcases List.mem_append.mp ha1 with h1 | h1
          · exact hdisj h1 (List.mem_cons_of_mem _ ha2)
          · simp only [List.map_cons, List.map_nil, List.mem_singleton] at h1
            exact hkrest (h1 ▸ ha2)
      have hdel1 : ∀ x ∈ rest, x.2.scheduledOperation = ScheduledOperation.Delete →
          x.2.state = ObjectState.Removed :=
        fun x hx => hdel x (List.mem_cons_of_mem _ hx)
      rcases ih (done ++ [(e.1, l')]) st1 rfl hwf1 hnd1 hdel1 hobjrest with ⟨ih1, ih2, ih3⟩
      rw [hloop, hset]
      refine ⟨?_, ?_, ?_⟩
      · rw [ih1, List.filterMap_cons]
        simp only [reconEntry, hD, Bool.false_eq_true, if_false]
        rw [List.append_assoc]
        rfl
      · intro x hx hxDel
        rcases List.mem_cons.mp hx with rfl | hx1
        · exact absurd hxDel (by simpa using hD)
        · exact ih2 x hx1 hxDel
      · intro r hr
        have hrrest : ∀ y ∈ rest, y.2.scheduledOperation = ScheduledOperation.Delete →
            y.2.object ≠ r := fun y hy hyD => hr y (List.mem_cons_of_mem _ hy) hyD
        exact ih3 r hrrest

/-- C3: after a flush whose batch execution succeeds, every link still
in the identity table has its scheduled operation cleared to None, every
link that was scheduled for Delete is gone from the table, and the
identity attribute of each such deleted entity has been removed.  The
hypotheses are the identity-table well-formedness invariants: every
entry is keyed by its live object's identifier, keys are unique, and a
Delete-scheduled link is in the Removed state (remove is the only
operation that schedules Delete and it sets Removed at the same time). -/
theorem flush_success_reconciles (st : SessionState)
    (hwf : ∀ e ∈ st.objectLinks, st.heap e.2.object = some e.1)
    (hnd : (st.objectLinks.map Prod.fst).Nodup)
    (hdel : ∀ e ∈ st.objectLinks, e.2.scheduledOperation = ScheduledOperation.Delete →
      e.2.state = ObjectState.Removed)
    (hok : (_flush st none).error = none) :
    (∀ e ∈ (_flush st none).st.objectLinks,
        e.2.scheduledOperation = ScheduledOperation.None)
      ∧ (∀ e ∈ st.objectLinks, e.2.scheduledOperation = ScheduledOperation.Delete →
          tableLookup (_flush st none).st.objectLinks e.1 = none
            ∧ (_flush st none).st.heap e.2.object = none) := by
  cases hd : (dirtyCheckPass st.objectLinks).error with
  | some e1 => simp [_flush, hd] at hok
  | none =>
  cases hi : (insertPass (dirtyCheckPass st.objectLinks).links).error with
  | some e2 => simp [_flush, hd, hi] at hok
  | none =>
  set t2 := (insertPass (dirtyCheckPass st.objectLinks).links).links with ht2
  have hflush : (_flush st none).st = reconcileLoop t2 { st with objectLinks := t2 } := by
    simp [_flush, hd, hi]
  have hskel : t2.map entrySkel = st.objectLinks.map entrySkel := by
    rw [ht2, insertPass_skel, dirtyCheckPass_skel]
  have hwf2 : ∀ e ∈ t2,
      ({ st with objectLinks := t2 } : SessionState).heap e.2.object = some e.1 := by
    intro e he
    rcases skel_mem t2 st.objectLinks hskel e he with ⟨e0, he0, hk, _, _, hb⟩
    show st.heap e.2.object = some e.1
    rw [← hb, ← hk]
    exact hwf e0 he0
  have hnd2 : (t2.map Prod.fst).Nodup := by
    rw [skel_keys_eq t2 st.objectLinks hskel]; exact hnd
  have hdel2 : ∀ e ∈ t2, e.2.scheduledOperation = ScheduledOperation.Delete →
      e.2.state = ObjectState.Removed := by
    intro e he hD
    rcases skel_mem t2 st.objectLinks hskel e he with ⟨e0, he0, _, hs, hop, _⟩
    rw [← hs]
    exact hdel e0 he0 (by rw [hop, hD])
  have hobj2 : (t2.map fun e => e.2.object).Nodup := by
    rw [skel_objects_eq t2 st.objectLinks hskel]
    exact objects_nodup st.objectLinks st.heap hwf hnd
  rcases reconcileLoop_spec t2 [] { st with objectLinks := t2 } (by simp) hwf2
      (by simpa using hnd2) hdel2 hobj2 with ⟨h1, h2, _⟩
  constructor
  · intro e he
    rw [hflush, h1] at he
    simp only [List.nil_append] at he
    exact reconEntry_mem t2 e he
  · intro e0 he0 hD
    rcases skel_mem st.objectLinks t2 hskel.symm e0 he0 with ⟨e2, he2, hk, _, hop, hb⟩
    have he2D : e2.2.scheduledOperation = ScheduledOperation.Delete := by rw [hop, hD]
    constructor
    · rw [hflush, h1]
      simp only [List.nil_append]
      apply (tableLookup_eq_none _ _).mpr
      intro hmem
      rcases List.mem_map.mp hmem with ⟨x, hx, hxk⟩
      rcases List.mem_filterMap.mp hx with ⟨a, ha, hra⟩
      by_cases haD : a.2.scheduledOperation == ScheduledOperation.Delete
      · simp [reconEntry, haD] at hra
      · have hxa : x.1 = a.1 := by
          simp only [reconEntry, haD, Bool.false_eq_true, if_false,
            Option.some.injEq] at hra
          rw [← hra]
        have hkeq : a.1 = e2.1 := by rw [← hxa, hxk, ← hk]
        have hae2 : a = e2 := entries_eq_of_key t2 hnd2 a e2 ha he2 hkeq
        rw [hae2] at haD
        exact absurd he2D (by simpa using haD)
    · rw [hflush, ← hb]
      exact h2 e2 he2 he2D

/-- Witness for C3: on the concrete three-link state a successful flush
removes the Delete-scheduled entry (key 12) from the table and deletes
the _id attribute of its entity (object 2). -/
theorem flush_success_reconciles_witness :
    tableLookup (_flush stFlushW none).st.objectLinks 12 = none
      ∧ (_flush stFlushW none).st.heap 2 = none := by
  have hwf : ∀ e ∈ stFlushW.objectLinks, stFlushW.heap e.2.object = some e.1 := by
    intro e he
    simp only [stFlushW, List.mem_cons, List.not_mem_nil, or_false] at he
    rcases he with rfl | rfl | rfl <;> rfl
  have hnd : (stFlushW.objectLinks.map Prod.fst).Nodup := by
    simp [stFlushW]
  have hdel : ∀ e ∈ stFlushW.objectLinks,
      e.2.scheduledOperation = ScheduledOperation.Delete →
        e.2.state = ObjectState.Removed := by
    intro e he
    simp only [stFlushW, List.mem_cons, List.not_mem_nil, or_false] at he
    rcases he with rfl | rfl | rfl <;> simp [linkDirtyW, linkInsW, linkDelW]
  have hm : ((12 : Ident), linkDelW) ∈ stFlushW.objectLinks := by
    show ((12 : Ident), linkDelW) ∈ [(10, linkDirtyW), (11, linkInsW), (12, linkDelW)]
    exact List.mem_cons_of_mem _ (List.mem_cons_of_mem _ (List.mem_cons_self _ _))
  exact (flush_success_reconciles stFlushW hwf hnd hdel rfl).2 (12, linkDelW) hm rfl

/-- Every operation in a flush batch is an update, an insert, or the
delete of the live object of some table entry — whatever the outcome of
the flush. -/
theorem flush_batch_mem (st : SessionState) (ex : Option Err) :
    ∀ op ∈ (_flush st ex).batch,
      (∃ d, op = BatchOp.update d) ∨ (∃ d, op = BatchOp.insert d)
        ∨ ∃ e ∈ st.objectLinks, op = BatchOp.delete e.2.object := by
  intro op hop
  have hdeletes : ∀ op ∈ deletePass (insertPass (dirtyCheckPass st.objectLinks).links).links,
      ∃ e ∈ st.objectLinks, op = BatchOp.delete e.2.object := by
    intro o ho
    rcases deletePass_ops_delete _ o ho with ⟨e, he, _, hdel⟩
    have hskel : (insertPass (dirtyCheckPass st.objectLinks).links).links.map entrySkel
        = st.objectLinks.map entrySkel := by
      rw [insertPass_skel, dirtyCheckPass_skel]
    rcases skel_mem _ _ hskel e he with ⟨e0, he0, _, _, _, hb⟩
    exact ⟨e0, he0, by rw [hdel, hb]⟩
  cases hd : (dirtyCheckPass st.objectLinks).error with
  | some e1 =>
    simp only [_flush, hd] at hop
    exact .inl (dirtyCheckPass_ops_update _ op hop)
  | none =>
    cases hi : (insertPass (dirtyCheckPass st.objectLinks).links).error with
    | some e2 =>
      simp only [_flush, hd, hi] at hop
      rcases List.mem_append.mp hop with h | h
      · exact .inl (dirtyCheckPass_ops_update _ op h)
      · exact .inr (.inl (insertPass_ops_insert _ op h))
    | none =>
      have hbatch : (_flush st ex).batch
          = (dirtyCheckPass st.objectLinks).ops
            ++ (insertPass (dirtyCheckPass st.objectLinks).links).ops
            ++ deletePass (insertPass (dirtyCheckPass st.objectLinks).links).links := by
        cases ex <;> simp [_flush, hd, hi]
      rw [hbatch] at hop
      rcases List.mem_append.mp hop with h | h
      · rcases List.mem_append.mp h with h1 | h1
        · exact .inl (dirtyCheckPass_ops_update _ op h1)
        · exact .inr (.inl (insertPass_ops_insert _ op h1))
      · exact .inr (.inr (hdeletes op h))

/-- C7: when remove reaches a Managed link scheduled for Insert, the
entity is unlinked synchronously inside the remove operation, its _id
attribute is deleted, and — since flush only ever emits deletes for live
objects of current table entries — no later flush from a state that no
longer links that entity appends a delete operation for it. -/
theorem remove_insert_unlinks_immediately (env : Env) (st : SessionState)
    (obj : EntityRef) (k : Ident) (links : ObjectLinks)
    (hid : st.heap obj = some k)
    (hlk : tableLookup st.objectLinks k = some links)
    (hman : links.state = ObjectState.Managed)
    (hins : links.scheduledOperation = ScheduledOperation.Insert)
    (hobj : links.object = obj) :
    (_removeEntities env st [obj]).callbackError = none
      ∧ (_removeEntities env st [obj]).state.objectLinks = tableErase st.objectLinks k
      ∧ (_removeEntities env st [obj]).state.heap obj = none
      ∧ ∀ (st2 : SessionState) (ex : Option Err),
          (∀ e ∈ st2.objectLinks, e.2.object ≠ obj) →
          BatchOp.delete obj ∉ (_flush st2 ex).batch := by
  have hunl : _unlinkObject st links
      = { st with
            objectLinks := tableErase st.objectLinks k
            heap := fun r => if r = links.object then none else st.heap r } := by
    rw [_unlinkObject, hobj, hid]
    have hcond : (links.scheduledOperation == ScheduledOperation.Insert
        || links.state == ObjectState.Removed) = true := by simp [hins]
    simp [hcond, hobj]
  have hrun : _removeEntities env st [obj] = OpOutcome.ok (_unlinkObject st links) := by
    simp [_removeEntities, removeEntitiesLoop, removeEntityStep, _getObjectLinks,
      hid, hlk, hman, hins]
  refine ⟨?_, ?_, ?_, ?_⟩
  · rw [hrun]; rfl
  · rw [hrun, hunl]; rfl
  · rw [hrun, hunl]
    show (if obj = links.object then none else st.heap obj) = none
    rw [if_pos hobj.symm]
  · intro st2 ex hno hmem
    rcases flush_batch_mem st2 ex _ hmem with ⟨d, h⟩ | ⟨d, h⟩ | ⟨e, he, h⟩
    · exact BatchOp.noConfusion h
    · exact BatchOp.noConfusion h
    · exact hno e he (BatchOp.delete.inj h).symm

/-- Witness for C7: removing the never-persisted entity 3 empties the
table, deletes its identifier, and a later flush from the resulting
state emits no delete for it. -/
theorem remove_insert_unlinks_immediately_witness :
    (_removeEntities envW stC7W [3]).state.objectLinks = []
      ∧ (_removeEntities envW stC7W [3]).state.heap 3 = none
      ∧ BatchOp.delete 3 ∉ (_flush (_removeEntities envW stC7W [3]).state none).batch := by
  have h := remove_insert_unlinks_immediately envW stC7W 3 20 linkC7W rfl rfl rfl rfl rfl
  have hempty : (_removeEntities envW stC7W [3]).state.objectLinks = [] := by
    rw [h.2.1]; rfl
  refine ⟨hempty, h.2.2.1, ?_⟩
  apply h.2.2.2
  intro e he
  rw [hempty] at he
  exact absurd he (List.not_mem_nil e)

/-- Appending past a table in which the key misses continues the lookup
in the appended part. -/
theorem tableLookup_append_none (t1 t2 : List (Ident × ObjectLinks)) (k : Ident)
    (h : tableLookup t1 k = none) :
    tableLookup (t1 ++ t2) k = tableLookup t2 k := by
  induction t1 with
  | nil => rfl
  | cons e rest ih =>
    by_cases hk : e.1 = k
    · rw [tableLookup, if_pos hk] at h
      exact Option.noConfusion h
    · rw [tableLookup, if_neg hk] at h
      rw [List.cons_append, tableLookup, if_neg hk]
      exact ih h

/-- Looking up the key of a freshly appended entry finds that entry when
the key was absent before. -/
theorem tableLookup_append_self (t : List (Ident × ObjectLinks)) (k : Ident)
    (l : ObjectLinks) (h : tableLookup t k = none) :
    tableLookup (t ++ [(k, l)]) k = some l := by
  rw [tableLookup_append_none t [(k, l)] k h, tableLookup, if_pos rfl]

/-- Counterexample to C2 as stated: starting from an empty identity
table (a fresh session) and an entity that carries a manually assigned
identifier, one public save reports the detached-object error AND leaves
that entity in the identity table as a link with state Detached —
_getObjectLinks links the record before save inspects its state. -/
theorem detached_entity_enters_table_counterexample :
    ((_saveEntities envW stDetW [0]).callbackError = some errSaveDetached)
      ∧ (((_saveEntities envW stDetW [0]).state.objectLinks.map
            fun e => (e.1, e.2.state)) = [(5, ObjectState.Detached)]) :=
  ⟨rfl, rfl⟩

/-- C2 amended: when save or remove encounters an entity whose
identifier is set but absent from the identity table (and whose type is
mapped), the operation reports the detached error, but the lookup has
already linked the entity into the identity table with state Detached,
and the entry is still there when the error callback fires. -/
theorem save_detached_links_into_table (env : Env) (st : SessionState)
    (obj : EntityRef) (id : Ident) (p : Persister)
    (hid : st.heap obj = some id)
    (hlk : tableLookup st.objectLinks id = none)
    (hp : env.persisterOf obj = some p) :
    (_saveEntities env st [obj]).callbackError = some errSaveDetached
      ∧ tableLookup (_saveEntities env st [obj]).state.objectLinks id
          = some { state := .Detached, scheduledOperation := .None, object := obj,
                   originalDocument := none, persister := p }
      ∧ (_removeEntities env st [obj]).callbackError = some errRemoveDetached
      ∧ tableLookup (_removeEntities env st [obj]).state.objectLinks id
          = some { state := .Detached, scheduledOperation := .None, object := obj,
                   originalDocument := none, persister := p } := by
  have hg : _getObjectLinks env st obj
      = (some (id, { state := .Detached, scheduledOperation := .None, object := obj,
                     originalDocument := none, persister := p }),
         { st with objectLinks := st.objectLinks
            ++ [(id, { state := .Detached, scheduledOperation := .None, object := obj,
                       originalDocument := none, persister := p })] }) := by
    simp [_getObjectLinks, hid, hlk, hp]
  refine ⟨?_, ?_, ?_, ?_⟩
  · simp [_saveEntities, saveEntityStep, hg, OpOutcome.callbackError]
  · simp only [_saveEntities, saveEntityStep, hg, OpOutcome.state]
    exact tableLookup_append_self st.objectLinks id _ hlk
  · simp [_removeEntities, removeEntitiesLoop, removeEntityStep, hg,
      OpOutcome.callbackError]
  · simp only [_removeEntities, List.reverse_singleton, removeEntitiesLoop,
      removeEntityStep, hg, OpOutcome.state]
    exact tableLookup_append_self st.objectLinks id _ hlk

/-- Witness for the amended C2: the concrete detached scenario reports
the save error and shows the Detached record in the table under key 5. -/
theorem save_detached_links_into_table_witness :
    (_saveEntities envW stDetW [0]).callbackError = some errSaveDetached
      ∧ tableLookup (_saveEntities envW stDetW [0]).state.objectLinks 5
          = some { state := .Detached, scheduledOperation := .None, object := 0,
                   originalDocument := none, persister := pObserve } :=
  ⟨(save_detached_links_into_table envW stDetW 0 5 pObserve rfl rfl rfl).1,
   (save_detached_links_into_table envW stDetW 0 5 pObserve rfl rfl rfl).2.1⟩

/-- C6 (code behaviour at the failing input): a flush whose batch
execution fails reports the batch error, but nothing marks the session
invalid — the very next save on the same session state executes
normally, links the new entity and succeeds, instead of failing fast. -/
theorem flush_error_session_not_poisoned :
    ((_flush stFlushW (some batchErrW)).error = some batchErrW)
      ∧ (_saveEntities envW (_flush stFlushW (some batchErrW)).st [5]).isOk = true
      ∧ ((_saveEntities envW (_flush stFlushW (some batchErrW)).st [5]).state.objectLinks.map
            Prod.fst) = [10, 11, 12, 100] :=
  ⟨rfl, rfl, rfl⟩

/-- C10: save is not atomic over its cascade set.  When the walked list
holds a never-linked entity (no _id) before a detached entity (identifier
set but unlinked), save reports the detached-object error through its
callback, yet the earlier entity is already linked in the identity table
with state Managed and scheduledOperation Insert, and it keeps the
identifier that save assigned to it. -/
theorem save_not_atomic_on_detached (env : Env) (st : SessionState)
    (a d : EntityRef) (did : Ident) (pa pd : Persister)
    (ha : st.heap a = none)
    (hpa : env.persisterOf a = some pa)
    (hgen : tableLookup st.objectLinks (pa.generate st.genCount) = none)
    (hd : st.heap d = some did)
    (hdg : did ≠ pa.generate st.genCount)
    (hdl : tableLookup st.objectLinks did = none)
    (hpd : env.persisterOf d = some pd) :
    (_saveEntities env st [a, d]).callbackError = some errSaveDetached
      ∧ ((tableLookup (_saveEntities env st [a, d]).state.objectLinks
            (pa.generate st.genCount)).map
          fun l => (l.state, l.scheduledOperation, l.object))
        = some (ObjectState.Managed, ScheduledOperation.Insert, a)
      ∧ (_saveEntities env st [a, d]).state.heap a = some (pa.generate st.genCount) := by
  have hda : d ≠ a := by
    intro h
    rw [h, ha] at hd
    exact Option.noConfusion hd
  set gid : Ident := pa.generate st.genCount with hgid
  set insLinks : ObjectLinks :=
    { state := .Managed, scheduledOperation := .Insert, object := a,
      originalDocument := none, persister := pa } with hinsLinks
  set stMid : SessionState :=
    { objectLinks := st.objectLinks ++ [(gid, insLinks)]
      heap := fun r => if r = a then some gid else st.heap r
      genCount := st.genCount + 1 } with hstMid
  have hstep1 : saveEntityStep env st a = OpOutcome.ok stMid := by
    simp [saveEntityStep, _getObjectLinks, ha, hpa, _linkObject, hgen, hstMid,
      hinsLinks, hgid]
  set detLinks : ObjectLinks :=
    { state := .Detached, scheduledOperation := .None, object := d,
      originalDocument := none, persister := pd } with hdetLinks
  have hgd : gid ≠ did := fun h => hdg h.symm
  have hmidlk : tableLookup (st.objectLinks ++ [(gid, insLinks)]) did = none := by
    rw [tableLookup_append_none st.objectLinks _ did hdl]
    simp [tableLookup, hgd]
  have hstep2 : saveEntityStep env stMid d
      = OpOutcome.err errSaveDetached
          { stMid with objectLinks := stMid.objectLinks ++ [(did, detLinks)] } := by
    simp [saveEntityStep, _getObjectLinks, hstMid, hda, hd, hmidlk, hpd, hdetLinks]
  have hrun : _saveEntities env st [a, d]
      = OpOutcome.err errSaveDetached
          { stMid with objectLinks := stMid.objectLinks ++ [(did, detLinks)] } := by
    show (match saveEntityStep env st a with
      | OpOutcome.ok st1 => _saveEntities env st1 [d]
      | out => out) = _
    rw [hstep1]
    show (match saveEntityStep env stMid d with
      | OpOutcome.ok st1 => _saveEntities env st1 []
      | out => out) = _
    rw [hstep2]
  refine ⟨?_, ?_, ?_⟩
  · rw [hrun]; rfl
  · rw [hrun]
    show ((tableLookup (stMid.objectLinks ++ [(did, detLinks)]) gid).map
        fun l => (l.state, l.scheduledOperation, l.object)) = _
    have h1 : tableLookup (stMid.objectLinks ++ [(did, detLinks)]) gid
        = some insLinks := by
      rw [hstMid]
      show tableLookup ((st.objectLinks ++ [(gid, insLinks)]) ++ [(did, detLinks)]) gid
        = some insLinks
      rw [List.append_assoc, tableLookup_append_none st.objectLinks _ gid hgen]
      simp [tableLookup]
    rw [h1, hinsLinks]
    rfl
  · rw [hrun]
    show stMid.heap a = some gid
    rw [hstMid]
    show (if a = a then some gid else st.heap a) = some gid
    rw [if_pos rfl]

/-- Witness for C10: with entity 1 never linked and entity 0 detached
(identifier 5), save of the list with 1 first reports the detached error
while entity 1 stays linked under the freshly generated identifier 100. -/
theorem save_not_atomic_on_detached_witness :
    (_saveEntities envW stDetW [1, 0]).callbackError = some errSaveDetached
      ∧ (_saveEntities envW stDetW [1, 0]).state.heap 1 = some 100 :=
  ⟨(save_not_atomic_on_detached envW stDetW 1 0 5 pObserve pObserve
      rfl rfl rfl rfl (by decide) rfl rfl).1,
   (save_not_atomic_on_detached envW stDetW 1 0 5 pObserve pObserve
      rfl rfl rfl rfl (by decide) rfl rfl).2.2⟩

/-- Witness for C8: the save mask does exclude Remove, and the find mask
does not exclude Fetch. -/
theorem enqueue_invalidates_masks_witness :
    (saveTask.invalidates &&& Action.Remove ≠ 0)
      ∧ ¬(findTask.invalidates &&& Action.Fetch ≠ 0) := by
  constructor
  · exact (enqueue_invalidates_masks.1.2 Action.Remove (by decide)).mpr (by decide)
  · intro hne
    exact (by decide : ¬(Action.Fetch ≠ Action.Find ∧ Action.Fetch ≠ Action.Fetch))
      ((enqueue_invalidates_masks.2.2.2.2.2.2.1.2 Action.Fetch (by decide)).mp hne)

/-- Witness for C9: fetching entity 0 with the non-empty path list never
schedules the completion callback. -/
theorem fetchPaths_nonempty_never_completes_witness :
    _fetchPaths 0 (some [pathW]) = FetchOutcome.noAction :=
  (fetchPaths_nonempty_never_completes 0 0 pathW []).2.2.1

end HydrateSession
